import Mathlib

/-!
# Verification of the schedmeet availability engine

A shallow embedding of the grid/aggregation/selection logic of the
schedmeet repository, together with proofs about it.

JavaScript strings are modelled as lists of characters (`JStr`), so that
`split`, `indexOf`, `lastIndexOf` and `slice` are structural recursions
whose behaviour can be settled by induction.  JavaScript objects
(`Record<string, T>`) are modelled as association lists in insertion
order with JavaScript upsert semantics (`jsSet`): an existing key is
updated in place, a new key is appended.  Out-of-range array access
yields `undefined`, which the template-literal key construction
stringifies to `"undefined"`.

Sources embedded here:
* `src/components/AvailabilityGrid.tsx` — `getSlotKey`,
  `getAvailabilityData`, `getHeatmapColor`, `getSlotsBetween`,
  `handleSlotToggle`, `handleMouseDown`, `handleMouseEnter`;
* `src/pages/EventPage.tsx` — `generateTimeSlots` (times reduced to
  minutes-of-day, as `date-fns` parse/format round-trips `HH:mm`),
  `getBestTimes`, `filterResponsesForBestOnly`.
-/

namespace SchedMeet

/-- JavaScript strings, modelled as lists of characters. -/
abbrev JStr := List Char

/-- A respondent's availability map: slot key to boolean, insertion order. -/
abbrev AvailMap := List (JStr × Bool)

/-- The responses collection: respondent name to availability map. -/
abbrev Responses := List (JStr × AvailMap)

/-- `getSlotKey` of `AvailabilityGrid.tsx`: the template literal
`` `${dateStr}_${timeSlot}` ``. -/
def getSlotKey (dateStr timeSlot : JStr) : JStr :=
  dateStr ++ '_' :: timeSlot

/-- JavaScript `String.prototype.split('_')`: cut the string at every
occurrence of the separator.  The result is always non-empty. -/
def splitUnderscore : JStr → List JStr
  | [] => [[]]
  | c :: rest =>
      let r := splitUnderscore rest
      if c = '_' then [] :: r
      else
        match r with
        | [] => [[c]]
        | h :: t => (c :: h) :: t

/-- First index of `s` in `l`, if present. -/
def firstIdx : List JStr → JStr → Option Nat
  | [], _ => none
  | x :: xs, s => if x = s then some 0 else (firstIdx xs s).map (· + 1)

/-- JavaScript `Array.prototype.indexOf`: the first index, or `-1`. -/
def jsIndexOf (l : List JStr) (s : JStr) : Int :=
  match firstIdx l s with
  | some n => (n : Int)
  | none => -1

/-- `indexOf` applied to a possibly-`undefined` argument: destructuring
`const [a, b] = key.split('_')` can leave `b` undefined when the key has
no separator, and `indexOf(undefined)` is `-1`. -/
def jsIndexOfOpt (l : List JStr) (s? : Option JStr) : Int :=
  match s? with
  | some s => jsIndexOf l s
  | none => -1

/-- The string `"undefined"`: what a JavaScript template literal produces
from an out-of-range array access. -/
def undefinedStr : JStr := ['u', 'n', 'd', 'e', 'f', 'i', 'n', 'e', 'd']

/-- JavaScript array indexing by a (possibly negative) integer: an
out-of-range access yields `undefined`, stringified by the slot-key
template literal to `"undefined"`. -/
def jsIndex (l : List JStr) (i : Int) : JStr :=
  if h : 0 ≤ i ∧ i.toNat < l.length then l.get ⟨i.toNat, h.2⟩ else undefinedStr

/-- The inclusive integer range `[lo, hi]` of a `for (i = lo; i <= hi; i++)`
loop; empty when `hi < lo`. -/
def intRange (lo hi : Int) : List Int :=
  (List.range (hi - lo + 1).toNat).map (fun (k : Nat) => lo + (k : Int))

/-- `getSlotsBetween` of `AvailabilityGrid.tsx`: split both keys on the
separator, look up the date and time components in the `dates` and
`timeSlots` sequences, and enumerate the inclusive index rectangle back
into slot keys (dates outer, times inner). -/
def getSlotsBetween (dates timeSlots : List JStr) (startSlot endSlot : JStr) :
    List JStr :=
  let startParts := splitUnderscore startSlot
  let endParts := splitUnderscore endSlot
  let startDateIndex := jsIndexOfOpt dates startParts[0]?
  let endDateIndex := jsIndexOfOpt dates endParts[0]?
  let startTimeIndex := jsIndexOfOpt timeSlots startParts[1]?
  let endTimeIndex := jsIndexOfOpt timeSlots endParts[1]?
  let minDateIndex := min startDateIndex endDateIndex
  let maxDateIndex := max startDateIndex endDateIndex
  let minTimeIndex := min startTimeIndex endTimeIndex
  let maxTimeIndex := max startTimeIndex endTimeIndex
  (intRange minDateIndex maxDateIndex).flatMap fun dateIndex =>
    (intRange minTimeIndex maxTimeIndex).map fun timeIndex =>
      getSlotKey (jsIndex dates dateIndex) (jsIndex timeSlots timeIndex)

/-- `generateTimeSlots` of `EventPage.tsx`, with `HH:mm` times reduced to
minutes of the day (`date-fns` `parse`/`format` round-trip the value):
emit the current time, advance by 30 minutes, stop strictly before
`endM`. -/
def generateTimeSlots (startM endM : Nat) : List Nat :=
  if _h : startM < endM then startM :: generateTimeSlots (startM + 30) endM
  else []
termination_by endM - startM
decreasing_by omega

/-- Truthy property lookup `m[key]` on an availability map: an absent key
is `undefined`, which is falsy. -/
def lookupBool (m : AvailMap) (k : JStr) : Bool :=
  match m.find? (fun p => decide (p.1 = k)) with
  | some p => p.2
  | none => false

/-- JavaScript object property assignment on a string-keyed record:
an existing key is updated in place (keeping its insertion position),
a new key is appended. -/
def jsSet {β : Type} (m : List (JStr × β)) (k : JStr) (v : β) :
    List (JStr × β) :=
  if m.any (fun p => decide (p.1 = k)) then
    m.map (fun p => if p.1 = k then (k, v) else p)
  else m ++ [(k, v)]

/-- `getAvailabilityData` of `AvailabilityGrid.tsx`: iterate the responses
collection in order; on a truthy value at the slot key, increment `count`
and push the respondent's name. -/
def getAvailabilityData (responses : Responses) (dateStr timeSlot : JStr) :
    Nat × List JStr :=
  let slotKey := getSlotKey dateStr timeSlot
  responses.foldl
    (fun acc p =>
      if lookupBool p.2 slotKey then (acc.1 + 1, acc.2 ++ [p.1]) else acc)
    (0, [])

/-- `getHeatmapColor` of `AvailabilityGrid.tsx`.  The ratio `count/total`
is exact here (ℚ); at the grid's scale the float division of the source
agrees with the rational value on every comparison performed. -/
def getHeatmapColor (count total : Nat) (isUserSelected : Bool) : String :=
  if total = 0 then "bg-gray-50 hover:bg-gray-100"
  else
    let ratio : ℚ := (count : ℚ) / (total : ℚ)
    if isUserSelected then
      if ratio ≥ 0.8 then "bg-green-600 border-green-700"
      else if ratio ≥ 0.6 then "bg-green-500 border-green-600"
      else if ratio ≥ 0.4 then "bg-green-400 border-green-500"
      else if ratio ≥ 0.2 then "bg-green-300 border-green-400"
      else "bg-green-200 border-green-300"
    else
      if ratio ≥ 0.8 then "bg-green-500 hover:bg-green-600"
      else if ratio ≥ 0.6 then "bg-green-400 hover:bg-green-500"
      else if ratio ≥ 0.4 then "bg-green-300 hover:bg-green-400"
      else if ratio ≥ 0.2 then "bg-green-200 hover:bg-green-300"
      else if ratio > 0 then "bg-green-100 hover:bg-green-200"
      else "bg-gray-50 hover:bg-gray-100"

/-- Intensity tier of a heatmap class string: 5 (densest) down to 1, and
0 for the empty (gray) bucket. -/
def bucketLevel (s : String) : Nat :=
  if s = "bg-green-500 hover:bg-green-600" then 5
  else if s = "bg-green-400 hover:bg-green-500" then 4
  else if s = "bg-green-300 hover:bg-green-400" then 3
  else if s = "bg-green-200 hover:bg-green-300" then 2
  else if s = "bg-green-100 hover:bg-green-200" then 1
  else 0

/-- The spec's `heatmapBucket(count, total)`: the intensity tier of the
heatmap colour (the aggregate path of `getHeatmapColor`, i.e. without the
current user's own-selection styling overlay). -/
def heatmapBucket (count total : Nat) : Nat :=
  bucketLevel (getHeatmapColor count total false)

/-- The per-cell counting loop of `getBestTimes` in `EventPage.tsx`:
`for (const user in responses) if (responses[user][key]) count++`. -/
def cellCount (responses : Responses) (k : JStr) : Nat :=
  responses.foldl (fun c p => if lookupBool p.2 k then c + 1 else c) 0

/-- JavaScript `String.prototype.lastIndexOf('_')`: the last index of the
separator, or `-1` when absent. -/
def lastUnderscoreIdx : JStr → Int
  | [] => -1
  | c :: rest =>
      let r := lastUnderscoreIdx rest
      if r = -1 then (if c = '_' then 0 else -1) else r + 1

/-- A best-slot record `{date, time, count}` of `getBestTimes`. -/
structure BestSlot where
  date : JStr
  time : JStr
  count : Nat
deriving DecidableEq

/-- The `slotCounts` object of `getBestTimes`: dates outer, times inner,
one upsert per grid cell. -/
def slotCountsFor (dates timeSlots : List JStr) (responses : Responses) :
    List (JStr × Nat) :=
  dates.foldl
    (fun acc d =>
      timeSlots.foldl
        (fun acc2 t =>
          jsSet acc2 (getSlotKey d t) (cellCount responses (getSlotKey d t)))
        acc)
    []

/-- `getBestTimes` of `EventPage.tsx`: count votes per cell, take the
maximum (`Math.max` over an empty spread is `-Infinity`, modelled by the
seed `-1`, observationally equivalent here since counts are naturals and
the value is only compared with `0` and with individual counts), return
`[]` when the maximum is `0`, else every entry tied at the maximum, with
the date/time recovered by slicing the key at its last separator. -/
def getBestTimes (dates timeSlots : List JStr) (responses : Responses) :
    List BestSlot :=
  let slotCounts := slotCountsFor dates timeSlots responses
  let maxCount : Int := slotCounts.foldl (fun a p => max a (p.2 : Int)) (-1)
  if maxCount = 0 then []
  else
    (slotCounts.filter (fun p => decide ((p.2 : Int) = maxCount))).map
      (fun p =>
        let idx := lastUnderscoreIdx p.1
        ⟨p.1.take idx.toNat, p.1.drop (idx + 1).toNat, p.2⟩)

/-- The `bestKeys` set of `filterResponsesForBestOnly`: the slot keys of
the best list. -/
def bestKeys (best : List BestSlot) : List JStr :=
  best.map (fun s => getSlotKey s.date s.time)

/-- `filterResponsesForBestOnly` of `EventPage.tsx`, parameterised by the
best list the source obtains from `getBestTimes`: with an empty best list
return the empty collection; otherwise keep every respondent and restrict
their map to the best keys, preserving stored values and key order. -/
def filterResponsesForBestOnly (best : List BestSlot)
    (responses : Responses) : Responses :=
  if best.isEmpty then []
  else
    responses.map (fun p =>
      (p.1, p.2.filter (fun kv => decide (kv.1 ∈ bestKeys best))))

/-- The value a responses collection holds for respondent `u` at key `k`:
`none` when the respondent or the key is absent. -/
def valueAt (responses : Responses) (u k : JStr) : Option Bool :=
  (responses.find? (fun p => decide (p.1 = u))).bind
    (fun p => (p.2.find? (fun kv => decide (kv.1 = k))).map Prod.snd)

/-- The mutable interaction state of `AvailabilityGrid`: the drag flags
and the current user's availability map.  `dragMode = true` is the
source's `'select'`. -/
structure GridState where
  isDragging : Bool
  dragMode : Bool
  dragStartSlot : Option JStr
  avail : AvailMap
deriving DecidableEq

/-- `handleSlotToggle`: flip the single targeted key on a copy of the
availability map. -/
def handleSlotToggle (st : GridState) (dateStr timeSlot : JStr) :
    GridState :=
  let slotKey := getSlotKey dateStr timeSlot
  { st with avail := jsSet st.avail slotKey (!lookupBool st.avail slotKey) }

/-- `handleMouseDown`: fix the paint mode from the negation of the start
cell's current state, start dragging, record the drag-start key, and
toggle the start cell. -/
def handleMouseDown (st : GridState) (dateStr timeSlot : JStr) :
    GridState :=
  let slotKey := getSlotKey dateStr timeSlot
  let currentState := lookupBool st.avail slotKey
  handleSlotToggle
    { isDragging := true, dragMode := !currentState,
      dragStartSlot := some slotKey, avail := st.avail }
    dateStr timeSlot

/-- `handleMouseEnter`: while dragging, recompute the rectangle between
the fixed drag-start key and the current cell and write the paint value
to every key of that rectangle on a copy of the current availability. -/
def handleMouseEnter (dates timeSlots : List JStr) (st : GridState)
    (dateStr timeSlot : JStr) : GridState :=
  match st.isDragging, st.dragStartSlot with
  | true, some startK =>
      let currentSlot := getSlotKey dateStr timeSlot
      let slotsInRange := getSlotsBetween dates timeSlots startK currentSlot
      let shouldSelect := st.dragMode
      { st with
        avail := slotsInRange.foldl (fun a s => jsSet a s shouldSelect)
          st.avail }
  | _, _ => st

/-- The spec's five-plus-empty tier classification of a ratio, inclusive
on each tier's lower bound. -/
def levelOfRatio (r : ℚ) : Nat :=
  if r ≥ 0.8 then 5
  else if r ≥ 0.6 then 4
  else if r ≥ 0.4 then 3
  else if r ≥ 0.2 then 2
  else if r > 0 then 1
  else 0

/-- The grid cells in scan order: dates outer, times inner. -/
def gridCells (dates timeSlots : List JStr) : List (JStr × JStr) :=
  dates.flatMap fun d => timeSlots.map fun t => (d, t)

/-- The greatest per-cell count of a grid (0 on an empty grid). -/
def maxCellCount (dates timeSlots : List JStr) (responses : Responses) :
    Nat :=
  ((gridCells dates timeSlots).map
    (fun p => cellCount responses (getSlotKey p.1 p.2))).foldl max 0

section Theorems

/-! ## Aggregation (C1) -/

lemma getAvailabilityData_foldl (responses : Responses) (k : JStr) :
    ∀ c us, responses.foldl
        (fun acc p =>
          if lookupBool p.2 k then (acc.1 + 1, acc.2 ++ [p.1]) else acc)
        (c, us) =
      (c + (responses.filter (fun p => lookupBool p.2 k)).length,
       us ++ (responses.filter (fun p => lookupBool p.2 k)).map Prod.fst) := by
  induction responses with
  | nil => intro c us; simp
  | cons p ps ih =>
      intro c us
      by_cases h : lookupBool p.2 k
      · rw [List.foldl_cons]
        simp only [h, if_true]
        rw [ih]
        simp [List.filter_cons, h]
        omega
      · rw [List.foldl_cons]
        simp only [h, if_false]
        rw [ih]
        simp [List.filter_cons, h]

/-- C1: for every responses collection and grid cell, the aggregator's
count is the number of respondents whose map holds a truthy value at the
slot key, `availableUsers` is exactly those respondents' identifiers in
iteration order, the count equals the length of `availableUsers`, and it
never exceeds the number of respondents. -/
theorem getAvailabilityData_spec (responses : Responses)
    (dateStr timeSlot : JStr) :
    (getAvailabilityData responses dateStr timeSlot).1 =
      (responses.filter
        (fun p => lookupBool p.2 (getSlotKey dateStr timeSlot))).length ∧
    (getAvailabilityData responses dateStr timeSlot).2 =
      (responses.filter
        (fun p => lookupBool p.2 (getSlotKey dateStr timeSlot))).map
        Prod.fst ∧
    (getAvailabilityData responses dateStr timeSlot).1 =
      (getAvailabilityData responses dateStr timeSlot).2.length ∧
    (getAvailabilityData responses dateStr timeSlot).1 ≤
      responses.length := by
  have h := getAvailabilityData_foldl responses
    (getSlotKey dateStr timeSlot) 0 []
  unfold getAvailabilityData
  rw [h]
  refine ⟨by simp, by simp, by simp, ?_⟩
  simpa using List.length_filter_le _ responses

/-! ## Time slot generation (C2, C9) -/

lemma generateTimeSlots_closed (k start : Nat) :
    generateTimeSlots start (start + 30 * k) =
      (List.range k).map (fun i => start + 30 * i) := by
  induction k generalizing start with
  | zero =>
      rw [generateTimeSlots]
      simp
  | succ n ih =>
      have h1 : start + 30 * (n + 1) = (start + 30) + 30 * n := by ring
      rw [generateTimeSlots,
        dif_pos (by omega : start < start + 30 * (n + 1)), h1, ih (start + 30),
        List.range_succ_eq_map, List.map_cons, List.map_map]
      refine congrArg₂ List.cons (by simp) ?_
      refine List.map_congr_left fun i _ => ?_
      simp only [Function.comp_apply]
      omega

/-- C2: for 30-minute-aligned start < end, the generated slot sequence
has length (end−start)/30, is strictly ascending, starts at `start`, and
never includes `end`; for start ≥ end it is empty. -/
theorem generateTimeSlots_spec :
    (∀ startM endM : Nat, startM % 30 = 0 → endM % 30 = 0 →
      startM < endM →
      (generateTimeSlots startM endM).length = (endM - startM) / 30 ∧
      (generateTimeSlots startM endM).Pairwise (· < ·) ∧
      (generateTimeSlots startM endM).head? = some startM ∧
      endM ∉ generateTimeSlots startM endM) ∧
    (∀ startM endM : Nat, endM ≤ startM →
      generateTimeSlots startM endM = []) := by
  constructor
  · intro s e hs he hlt
    obtain ⟨k, hk⟩ : ∃ k, e = s + 30 * k := ⟨(e - s) / 30, by omega⟩
    subst hk
    have hcl := generateTimeSlots_closed k s
    refine ⟨?_, ?_, ?_, ?_⟩
    · rw [hcl]; simp
    · rw [hcl]
      exact List.Pairwise.map _ (fun a b hab => by omega)
        (List.pairwise_lt_range k)
    · rw [generateTimeSlots, dif_pos hlt]
      rfl
    · rw [hcl]
      simp only [List.mem_map, List.mem_range, not_exists, not_and]
      intro i hi
      omega
  · intro s e hle
    rw [generateTimeSlots, dif_neg (by omega)]

/-- Witness for C2 at a concrete range. -/
theorem generateTimeSlots_spec_witness :
    (generateTimeSlots 540 600).length = (600 - 540) / 30 ∧
    generateTimeSlots 600 540 = [] :=
  ⟨(generateTimeSlots_spec.1 540 600 (by decide) (by decide) (by decide)).1,
   generateTimeSlots_spec.2 600 540 (by decide)⟩

/-- C9 counterexample: for start > end the slot indexer silently returns
the empty sequence — no `InvalidTimeRangeError` is returned or raised
anywhere in the code, contrary to the claim. -/
theorem generateTimeSlots_c9_counterexample :
    generateTimeSlots 600 540 = [] := by
  rw [generateTimeSlots, dif_neg (by decide)]

/-- C9 (amended): for every pair of inputs with start ≥ end the slot
indexer silently returns the empty sequence; the code defines no error
path for a misconfigured range. -/
theorem generateTimeSlots_no_error (startM endM : Nat)
    (h : endM ≤ startM) : generateTimeSlots startM endM = [] := by
  rw [generateTimeSlots, dif_neg (by omega)]

/-- Witness for the amended C9. -/
theorem generateTimeSlots_no_error_witness :
    generateTimeSlots 720 600 = [] :=
  generateTimeSlots_no_error 720 600 (by decide)

/-! ## Heatmap buckets (C5) -/

lemma heatmapBucket_eq_level (c t : Nat) (ht : t ≠ 0) :
    heatmapBucket c t = levelOfRatio ((c : ℚ) / t) := by
  unfold heatmapBucket getHeatmapColor levelOfRatio
  rw [if_neg ht]
  simp only [Bool.false_eq_true, if_false]
  split_ifs <;> decide

lemma levelOfRatio_mono {r s : ℚ} (h : r ≤ s) :
    levelOfRatio r ≤ levelOfRatio s := by
  unfold levelOfRatio
  split_ifs <;> first | (exfalso; linarith) | norm_num

lemma levelOfRatio_ge_iff (r : ℚ) :
    (levelOfRatio r ≥ 5 ↔ 0.8 ≤ r) ∧
    (levelOfRatio r ≥ 4 ↔ 0.6 ≤ r) ∧
    (levelOfRatio r ≥ 3 ↔ 0.4 ≤ r) ∧
    (levelOfRatio r ≥ 2 ↔ 0.2 ≤ r) ∧
    (levelOfRatio r ≥ 1 ↔ 0 < r) := by
  unfold levelOfRatio
  split_ifs <;>
    refine ⟨⟨fun hx => by linarith,
             fun hx => by first | (exfalso; linarith) | norm_num⟩,
            ⟨fun hx => by linarith,
             fun hx => by first | (exfalso; linarith) | norm_num⟩,
            ⟨fun hx => by linarith,
             fun hx => by first | (exfalso; linarith) | norm_num⟩,
            ⟨fun hx => by linarith,
             fun hx => by first | (exfalso; linarith) | norm_num⟩,
            ⟨fun hx => by linarith,
             fun hx => by first | (exfalso; linarith) | norm_num⟩⟩

/-- C5: the two-argument heatmap bucket (the aggregate colour path of
`getHeatmapColor`) is monotone non-decreasing in the ratio count/total;
a zero count with positive total gives the empty bucket; a zero total
always gives the empty bucket; and the five non-empty tiers have
inclusive lower bounds at ratios 0.8, 0.6, 0.4, 0.2, and strictly above
0. -/
theorem heatmapBucket_spec :
    (∀ c₁ t₁ c₂ t₂ : Nat, 0 < t₁ → 0 < t₂ →
      (c₁ : ℚ) / t₁ ≤ (c₂ : ℚ) / t₂ →
      heatmapBucket c₁ t₁ ≤ heatmapBucket c₂ t₂) ∧
    (∀ t : Nat, 0 < t → heatmapBucket 0 t = 0) ∧
    (∀ c : Nat, heatmapBucket c 0 = 0) ∧
    (∀ c t : Nat, 0 < t →
      ((heatmapBucket c t ≥ 5 ↔ (0.8 : ℚ) ≤ (c : ℚ) / t) ∧
       (heatmapBucket c t ≥ 4 ↔ (0.6 : ℚ) ≤ (c : ℚ) / t) ∧
       (heatmapBucket c t ≥ 3 ↔ (0.4 : ℚ) ≤ (c : ℚ) / t) ∧
       (heatmapBucket c t ≥ 2 ↔ (0.2 : ℚ) ≤ (c : ℚ) / t) ∧
       (heatmapBucket c t ≥ 1 ↔ 0 < (c : ℚ) / t))) := by
  refine ⟨?_, ?_, ?_, ?_⟩
  · intro c₁ t₁ c₂ t₂ h₁ h₂ hle
    rw [heatmapBucket_eq_level _ _ (by omega),
      heatmapBucket_eq_level _ _ (by omega)]
    exact levelOfRatio_mono hle
  · intro t ht
    rw [heatmapBucket_eq_level _ _ (by omega)]
    norm_num [levelOfRatio]
  · intro c
    show bucketLevel (getHeatmapColor c 0 false) = 0
    unfold getHeatmapColor
    rw [if_pos rfl]
    decide
  · intro c t ht
    rw [heatmapBucket_eq_level _ _ (by omega)]
    exact levelOfRatio_ge_iff _

/-- Witness for C5 at concrete counts. -/
theorem heatmapBucket_spec_witness :
    heatmapBucket 1 3 ≤ heatmapBucket 4 5 ∧ heatmapBucket 0 7 = 0 :=
  ⟨heatmapBucket_spec.1 1 3 4 5 (by decide) (by decide) (by norm_num),
   heatmapBucket_spec.2.1 7 (by decide)⟩

/-! ## Range selection (C3, C8) -/

lemma splitUnderscore_no_sep {t : JStr} (h : '_' ∉ t) :
    splitUnderscore t = [t] := by
  induction t with
  | nil => rfl
  | cons c rest ih =>
      have hc : c ≠ '_' := fun hc => h (hc ▸ List.mem_cons_self c rest)
      have hr : '_' ∉ rest := fun hr => h (List.mem_cons_of_mem c hr)
      rw [splitUnderscore]
      simp only [hc, if_false, ih hr]

lemma splitUnderscore_key {c t : JStr} (hc : '_' ∉ c) (ht : '_' ∉ t) :
    splitUnderscore (getSlotKey c t) = [c, t] := by
  induction c with
  | nil =>
      show splitUnderscore ('_' :: t) = [[], t]
      rw [splitUnderscore]
      simp [splitUnderscore_no_sep ht]
  | cons ch c' ih =>
      have hch : ch ≠ '_' := fun h => hc (h ▸ List.mem_cons_self ch c')
      have hc' : '_' ∉ c' := fun h => hc (List.mem_cons_of_mem ch h)
      show splitUnderscore (ch :: getSlotKey c' t) = [ch :: c', t]
      rw [splitUnderscore]
      simp only [hch, if_false, ih hc']

lemma firstIdx_isSome {l : List JStr} {s : JStr} (h : s ∈ l) :
    ∃ n, firstIdx l s = some n := by
  induction l with
  | nil => cases h
  | cons x xs ih =>
      by_cases hx : x = s
      · exact ⟨0, by rw [firstIdx]; simp [hx]⟩
      · rcases List.mem_cons.mp h with h1 | h1
        · exact absurd h1.symm hx
        · obtain ⟨n, hn⟩ := ih h1
          exact ⟨n + 1, by rw [firstIdx]; simp [hx, hn]⟩

lemma firstIdx_get {l : List JStr} {s : JStr} {n : Nat}
    (h : firstIdx l s = some n) : l[n]? = some s := by
  induction l generalizing n with
  | nil => cases h
  | cons x xs ih =>
      rw [firstIdx] at h
      by_cases hx : x = s
      · simp only [hx, if_true] at h
        cases h
        simp [hx]
      · simp only [hx, if_false] at h
        match hm : firstIdx xs s with
        | none => rw [hm] at h; cases h
        | some m =>
            rw [hm] at h
            simp only [Option.map_some'] at h
            cases h
            simpa using ih hm

lemma firstIdx_eq_none {l : List JStr} {s : JStr} (h : s ∉ l) :
    firstIdx l s = none := by
  induction l with
  | nil => rfl
  | cons x xs ih =>
      have hx : x ≠ s := fun hx => h (hx ▸ List.mem_cons_self x xs)
      have hs : s ∉ xs := fun hs => h (List.mem_cons_of_mem x hs)
      rw [firstIdx]
      simp [hx, ih hs]

lemma jsIndexOf_of_mem {l : List JStr} {s : JStr} (h : s ∈ l) :
    ∃ n : Nat, jsIndexOf l s = (n : Int) ∧ l[n]? = some s := by
  obtain ⟨n, hn⟩ := firstIdx_isSome h
  exact ⟨n, by rw [jsIndexOf, hn], firstIdx_get hn⟩

lemma jsIndexOf_of_not_mem {l : List JStr} {s : JStr} (h : s ∉ l) :
    jsIndexOf l s = -1 := by
  rw [jsIndexOf, firstIdx_eq_none h]

lemma jsIndex_get? {l : List JStr} {n : Nat} {s : JStr}
    (h : l[n]? = some s) : jsIndex l (n : Int) = s := by
  have hlt : n < l.length := by
    by_contra hge
    rw [List.getElem?_eq_none (by omega)] at h
    cases h
  rw [jsIndex, dif_pos ⟨by omega, by simpa using hlt⟩]
  have := List.getElem?_eq_getElem hlt
  rw [this] at h
  cases h
  simp [List.get_eq_getElem]

lemma jsIndex_neg_one (l : List JStr) : jsIndex l (-1) = undefinedStr := by
  rw [jsIndex, dif_neg]
  intro hcon
  omega

lemma intRange_self (n : Int) : intRange n n = [n] := by
  have h1 : (n - n + 1).toNat = 1 := by omega
  rw [intRange, h1]
  simp [List.range_succ]

lemma intRange_length (lo hi : Int) :
    (intRange lo hi).length = (hi - lo + 1).toNat := by
  rw [intRange, List.length_map, List.length_range]

lemma flatMap_const_length {α β : Type} (l : List α) (f : α → List β)
    (c : Nat) (h : ∀ x ∈ l, (f x).length = c) :
    (l.flatMap f).length = l.length * c := by
  induction l with
  | nil => simp
  | cons x xs ih =>
      rw [List.flatMap_cons, List.length_append,
        h x (List.mem_cons_self x xs),
        ih (fun y hy => h y (List.mem_cons_of_mem x hy)), List.length_cons]
      ring

lemma getSlotsBetween_eq (dates timeSlots : List JStr)
    {a b cA tA cB tB : JStr}
    (ha : a = getSlotKey cA tA) (hb : b = getSlotKey cB tB)
    (hca : '_' ∉ cA) (hta : '_' ∉ tA) (hcb : '_' ∉ cB) (htb : '_' ∉ tB) :
    getSlotsBetween dates timeSlots a b =
      (intRange (min (jsIndexOf dates cA) (jsIndexOf dates cB))
                (max (jsIndexOf dates cA) (jsIndexOf dates cB))).flatMap
        (fun di =>
          (intRange (min (jsIndexOf timeSlots tA) (jsIndexOf timeSlots tB))
                    (max (jsIndexOf timeSlots tA)
                      (jsIndexOf timeSlots tB))).map
            (fun ti =>
              getSlotKey (jsIndex dates di) (jsIndex timeSlots ti))) := by
  subst ha hb
  simp only [getSlotsBetween, splitUnderscore_key hca hta,
    splitUnderscore_key hcb htb]
  rfl

lemma getSlotsBetween_symm (dates timeSlots : List JStr) (a b : JStr) :
    getSlotsBetween dates timeSlots a b =
      getSlotsBetween dates timeSlots b a := by
  simp only [getSlotsBetween]
  rw [min_comm, max_comm,
    min_comm (jsIndexOfOpt timeSlots (splitUnderscore a)[1]?),
    max_comm (jsIndexOfOpt timeSlots (splitUnderscore a)[1]?)]

/-- C3: for two slot keys addressing valid cells of the grid (components
present in the `dates` and `timeSlots` sequences, free of the separator
as the data model requires), the degenerate range is exactly the single
key, the range is direction-independent, and its size is the product of
the inclusive index spans. -/
theorem getSlotsBetween_spec (dates timeSlots : List JStr)
    {a b cA tA cB tB : JStr}
    (ha : a = getSlotKey cA tA) (hb : b = getSlotKey cB tB)
    (hca : '_' ∉ cA) (hta : '_' ∉ tA) (hcb : '_' ∉ cB) (htb : '_' ∉ tB)
    (hmca : cA ∈ dates) (hmta : tA ∈ timeSlots)
    (hmcb : cB ∈ dates) (hmtb : tB ∈ timeSlots) :
    getSlotsBetween dates timeSlots a a = [a] ∧
    getSlotsBetween dates timeSlots a b =
      getSlotsBetween dates timeSlots b a ∧
    (getSlotsBetween dates timeSlots a b).length =
      ((jsIndexOf dates cA - jsIndexOf dates cB).natAbs + 1) *
      ((jsIndexOf timeSlots tA - jsIndexOf timeSlots tB).natAbs + 1) := by
  obtain ⟨na, hna, hga⟩ := jsIndexOf_of_mem hmca
  obtain ⟨ma, hma, hgta⟩ := jsIndexOf_of_mem hmta
  obtain ⟨nb, hnb, hgb⟩ := jsIndexOf_of_mem hmcb
  obtain ⟨mb, hmb, hgtb⟩ := jsIndexOf_of_mem hmtb
  refine ⟨?_, getSlotsBetween_symm dates timeSlots a b, ?_⟩
  · rw [getSlotsBetween_eq dates timeSlots ha ha hca hta hca hta]
    rw [hna, hma, min_self, max_self, min_self, max_self, intRange_self,
      intRange_self]
    simp only [List.flatMap_cons, List.flatMap_nil, List.map_cons,
      List.map_nil, List.append_nil]
    rw [jsIndex_get? hga, jsIndex_get? hgta, ha]
  · rw [getSlotsBetween_eq dates timeSlots ha hb hca hta hcb htb]
    rw [hna, hma, hnb, hmb]
    have hdlen : (intRange (min (na : Int) nb) (max (na : Int) nb)).length =
        ((na : Int) - nb).natAbs + 1 := by
      rw [intRange_length]
      omega
    have htlen : (intRange (min (ma : Int) mb) (max (ma : Int) mb)).length =
        ((ma : Int) - mb).natAbs + 1 := by
      rw [intRange_length]
      omega
    rw [flatMap_const_length _ _ (((ma : Int) - mb).natAbs + 1)
      (fun x _ => by rw [List.length_map, htlen]), hdlen]

/-- Witness for C3 on a concrete two-by-two grid. -/
theorem getSlotsBetween_spec_witness :
    getSlotsBetween [['A'], ['B']] [['0', '9'], ['1', '0']]
      ['A', '_', '0', '9'] ['A', '_', '0', '9'] = [['A', '_', '0', '9']] :=
  (@getSlotsBetween_spec [['A'], ['B']] [['0', '9'], ['1', '0']]
    ['A', '_', '0', '9'] ['B', '_', '1', '0']
    ['A'] ['0', '9'] ['B'] ['1', '0']
    rfl rfl (by decide) (by decide) (by decide) (by decide)
    (by decide) (by decide) (by decide) (by decide)).1

/-- C8 counterexample: resolving a slot key whose components are absent
from the grid configuration does not fail with any error — the
`indexOf` calls yield `-1` and the enumeration silently produces the
garbage key `"undefined_09:00"`.  The claim that resolution fails with a
propagated `KeyResolutionError` is false: no such error exists in the
code. -/
theorem getSlotsBetween_c8_counterexample :
    getSlotsBetween [['A']] [['0', '9', ':', '0', '0']]
      ['B', '_', '0', '9', ':', '0', '0'] ['B', '_', '0', '9', ':', '0', '0'] =
      [['u', 'n', 'd', 'e', 'f', 'i', 'n', 'e', 'd',
        '_', '0', '9', ':', '0', '0']] := by
  decide

/-- C8 (amended): resolving a slot key against a grid configuration that
does not contain its components never fails: the lookups return `-1` and
`getSlotsBetween` silently resolves the stale key, enumerating keys
built from the out-of-range index (stringified `undefined`) instead of
propagating an error. -/
theorem getSlotsBetween_stale (dates timeSlots : List JStr)
    {a cX tX : JStr} (ha : a = getSlotKey cX tX)
    (hcx : '_' ∉ cX) (htx : '_' ∉ tX)
    (hnc : cX ∉ dates) (hnt : tX ∉ timeSlots) :
    getSlotsBetween dates timeSlots a a =
      [getSlotKey undefinedStr undefinedStr] := by
  rw [getSlotsBetween_eq dates timeSlots ha ha hcx htx hcx htx]
  rw [jsIndexOf_of_not_mem hnc, jsIndexOf_of_not_mem hnt,
    min_self, max_self, intRange_self]
  simp only [List.flatMap_cons, List.flatMap_nil, List.map_cons,
    List.map_nil, List.append_nil]
  rw [jsIndex_neg_one, jsIndex_neg_one]

/-- Witness for the amended C8. -/
theorem getSlotsBetween_stale_witness :
    getSlotsBetween [['A']] [['0', '9']] ['C', '_', '1', '1'] ['C', '_', '1', '1'] =
      [getSlotKey undefinedStr undefinedStr] :=
  @getSlotsBetween_stale [['A']] [['0', '9']]
    ['C', '_', '1', '1'] ['C'] ['1', '1']
    rfl (by decide) (by decide) (by decide) (by decide)

/-! ## Best-only filtering (C6, C10) -/

lemma find?_filter_key (m : AvailMap) (k : JStr) (q : JStr → Bool) :
    (m.filter (fun kv => q kv.1)).find? (fun kv => decide (kv.1 = k)) =
      if q k then m.find? (fun kv => decide (kv.1 = k)) else none := by
  induction m with
  | nil => cases hq : q k <;> simp [hq]
  | cons kv m ih =>
      by_cases hk : kv.1 = k
      · cases hq : q k
        · rw [List.filter_cons, if_neg (by simp [hk, hq]), ih, hq]
          simp
        · rw [List.filter_cons, if_pos (by simp [hk, hq]),
            List.find?_cons_of_pos _ (by simp [hk]),
            List.find?_cons_of_pos _ (by simp [hk])]
          simp
      · have hskip : List.find? (fun kv => decide (kv.1 = k)) (kv :: m) =
            List.find? (fun kv => decide (kv.1 = k)) m :=
          List.find?_cons_of_neg _ (by simp [hk])
        cases hq' : q kv.1
        · rw [List.filter_cons, if_neg (by simp [hq']), ih, hskip]
        · rw [List.filter_cons, if_pos (by simp [hq']),
            List.find?_cons_of_neg _ (by simp [hk]), ih, hskip]

lemma valueAt_map_filter (responses : Responses) (q : JStr → Bool)
    (u k : JStr) :
    valueAt (responses.map
        (fun p => (p.1, p.2.filter (fun kv => q kv.1)))) u k =
      if q k then valueAt responses u k else none := by
  unfold valueAt
  rw [List.find?_map]
  simp only [Function.comp_def]
  cases hf : responses.find? (fun p => decide (p.1 = u)) with
  | none => cases hq : q k <;> simp
  | some p =>
      simp only [Option.map_some', Option.some_bind]
      rw [find?_filter_key]
      cases hq : q k <;> simp

/-- C6: for every responses collection and best list, the best-only
filtered collection keeps a key if and only if it is the slot key of a
best-list cell, preserving the respondent's stored boolean there and
dropping every other key; with an empty best list the result is the
empty collection (so no respondent has any value). -/
theorem filterResponsesForBestOnly_spec (best : List BestSlot)
    (responses : Responses) :
    (best = [] → filterResponsesForBestOnly best responses = []) ∧
    (best ≠ [] → ∀ u k,
      valueAt (filterResponsesForBestOnly best responses) u k =
        if k ∈ bestKeys best then valueAt responses u k else none) := by
  constructor
  · intro h
    subst h
    rfl
  · intro h u k
    rw [filterResponsesForBestOnly,
      if_neg (fun hc => h (List.isEmpty_iff.mp hc))]
    have := valueAt_map_filter responses
      (fun x => decide (x ∈ bestKeys best)) u k
    rw [this]
    by_cases hk : k ∈ bestKeys best <;> simp [hk]

/-- Witness for C6 on a concrete collection. -/
theorem filterResponsesForBestOnly_spec_witness :
    filterResponsesForBestOnly [] [] = [] ∧
    valueAt (filterResponsesForBestOnly [⟨['A'], ['0', '9'], 1⟩]
        [(['u'], [(getSlotKey ['A'] ['0', '9'], true)])])
      ['u'] (getSlotKey ['A'] ['0', '9']) =
      (if getSlotKey ['A'] ['0', '9'] ∈ bestKeys [⟨['A'], ['0', '9'], 1⟩]
        then valueAt [(['u'], [(getSlotKey ['A'] ['0', '9'], true)])]
          ['u'] (getSlotKey ['A'] ['0', '9'])
        else none) :=
  ⟨(filterResponsesForBestOnly_spec [] []).1 rfl,
   (filterResponsesForBestOnly_spec [⟨['A'], ['0', '9'], 1⟩]
      [(['u'], [(getSlotKey ['A'] ['0', '9'], true)])]).2
     (by decide) ['u'] (getSlotKey ['A'] ['0', '9'])⟩

/-- C10 (implicit): with a non-empty best list, best-only filtering
keeps exactly the same respondent identifiers in the same order — a
respondent with no availability at any best slot is kept with an empty
map rather than removed — so the participant denominator is unchanged. -/
theorem filterResponsesForBestOnly_users (best : List BestSlot)
    (responses : Responses) (h : best ≠ []) :
    (filterResponsesForBestOnly best responses).map Prod.fst =
      responses.map Prod.fst := by
  rw [filterResponsesForBestOnly,
    if_neg (fun hc => h (List.isEmpty_iff.mp hc)), List.map_map]
  rfl

/-- Witness for C10: a respondent with no availability at the best slot
is kept. -/
theorem filterResponsesForBestOnly_users_witness :
    (filterResponsesForBestOnly [⟨['A'], ['0', '9'], 2⟩]
        [(['u'], [])]).map Prod.fst =
      List.map Prod.fst [((['u'] : JStr), ([] : AvailMap))] :=
  filterResponsesForBestOnly_users [⟨['A'], ['0', '9'], 2⟩]
    [(['u'], [])] (by decide)

/-! ## Drag gesture (C7) -/

lemma lookupBool_cons (p : JStr × Bool) (m : AvailMap) (k : JStr) :
    lookupBool (p :: m) k = if p.1 = k then p.2 else lookupBool m k := by
  unfold lookupBool
  by_cases h : p.1 = k
  · rw [List.find?_cons_of_pos _ (by simp [h]), if_pos h]
  · rw [List.find?_cons_of_neg _ (by simp [h]), if_neg h]

lemma lookupBool_map_update_eq (a : AvailMap) (s : JStr) (v : Bool)
    (hmem : a.any (fun p => decide (p.1 = s)) = true) :
    lookupBool (a.map (fun p => if p.1 = s then (s, v) else p)) s = v := by
  induction a with
  | nil => cases hmem
  | cons p a2 ih =>
      rw [List.map_cons]
      by_cases hps : p.1 = s
      · rw [if_pos hps, lookupBool_cons, if_pos rfl]
      · rw [if_neg hps, lookupBool_cons, if_neg hps]
        exact ih (by simpa [List.any_cons, hps] using hmem)

lemma lookupBool_map_update_ne (a : AvailMap) (s k : JStr) (v : Bool)
    (hks : k ≠ s) :
    lookupBool (a.map (fun p => if p.1 = s then (s, v) else p)) k =
      lookupBool a k := by
  induction a with
  | nil => rfl
  | cons p a2 ih =>
      rw [List.map_cons]
      by_cases hps : p.1 = s
      · rw [if_pos hps, lookupBool_cons, lookupBool_cons,
          if_neg (fun h => hks h.symm),
          if_neg (fun h => hks ((hps.symm.trans h).symm)), ih]
      · rw [if_neg hps, lookupBool_cons, lookupBool_cons, ih]

lemma lookupBool_append_eq (a : AvailMap) (s : JStr) (v : Bool)
    (hmiss : a.any (fun p => decide (p.1 = s)) = false) :
    lookupBool (a ++ [(s, v)]) s = v := by
  induction a with
  | nil => rw [List.nil_append, lookupBool_cons, if_pos rfl]
  | cons p a2 ih =>
      have hps : ¬ p.1 = s := by
        intro h
        simp [List.any_cons, h] at hmiss
      rw [List.cons_append, lookupBool_cons, if_neg hps]
      exact ih (by simpa [List.any_cons, hps] using hmiss)

lemma lookupBool_append_ne (a : AvailMap) (s k : JStr) (v : Bool)
    (hks : k ≠ s) :
    lookupBool (a ++ [(s, v)]) k = lookupBool a k := by
  induction a with
  | nil =>
      rw [List.nil_append, lookupBool_cons, if_neg (fun h => hks h.symm)]
  | cons p a2 ih =>
      rw [List.cons_append, lookupBool_cons, lookupBool_cons, ih]

/-- The one JavaScript-object law the gesture logic relies on: assignment
then lookup. -/
lemma lookupBool_jsSet (a : AvailMap) (s k : JStr) (v : Bool) :
    lookupBool (jsSet a s v) k = if k = s then v else lookupBool a k := by
  rw [jsSet]
  by_cases hany : a.any (fun p => decide (p.1 = s)) = true
  · rw [if_pos hany]
    by_cases hks : k = s
    · subst hks
      rw [if_pos rfl, lookupBool_map_update_eq a k v hany]
    · rw [if_neg hks, lookupBool_map_update_ne a s k v hks]
  · rw [if_neg hany]
    have hf : a.any (fun p => decide (p.1 = s)) = false :=
      Bool.eq_false_iff.mpr hany
    by_cases hks : k = s
    · subst hks
      rw [if_pos rfl, lookupBool_append_eq a k v hf]
    · rw [if_neg hks, lookupBool_append_ne a s k v hks]

lemma lookupBool_foldl_jsSet (slots : List JStr) (a : AvailMap) (v : Bool)
    (k : JStr) :
    lookupBool (slots.foldl (fun m s => jsSet m s v) a) k =
      if k ∈ slots then v else lookupBool a k := by
  induction slots generalizing a with
  | nil => simp
  | cons s rest ih =>
      rw [List.foldl_cons, ih]
      by_cases hk : k ∈ rest
      · rw [if_pos hk, if_pos (List.mem_cons_of_mem s hk)]
      · rw [if_neg hk, lookupBool_jsSet]
        by_cases hks : k = s
        · rw [if_pos hks, if_pos (by rw [hks]; exact List.mem_cons_self s rest)]
        · rw [if_neg hks, if_neg (fun hmem => by
            rcases List.mem_cons.mp hmem with h | h
            · exact hks h
            · exact hk h)]

/-- C7 counterexample: a drag that starts at cell (A, 09), grows to
(B, 09) and shrinks back to (A, 09) leaves (B, 09) painted even though
it lies outside the final rectangle and was unpainted before the
gesture — hover writes accumulate, they are not restored. -/
theorem handleMouseEnter_c7_counterexample :
    lookupBool (handleMouseEnter [['A'], ['B']] [['0', '9']]
        (handleMouseEnter [['A'], ['B']] [['0', '9']]
          (handleMouseDown ⟨false, false, none, []⟩ ['A'] ['0', '9'])
          ['B'] ['0', '9'])
        ['A'] ['0', '9']).avail ['B', '_', '0', '9'] = true ∧
    ['B', '_', '0', '9'] ∉ getSlotsBetween [['A'], ['B']] [['0', '9']]
      ['A', '_', '0', '9'] ['A', '_', '0', '9'] ∧
    lookupBool ([] : AvailMap) ['B', '_', '0', '9'] = false := by
  decide

/-- C7 (amended): on every hover during a drag the rectangle is
recomputed from the fixed drag-start cell and the current cell and every
key of that rectangle is written with the gesture's paint value, but
keys outside the new rectangle keep the value they had before that hover
— writes from earlier hovers of the same gesture persist (accumulate)
and are not restored to the pre-gesture state when the rectangle
shrinks. -/
theorem handleMouseEnter_paints (dates timeSlots : List JStr)
    (st : GridState) (dateStr timeSlot startK : JStr)
    (hd : st.isDragging = true) (hs : st.dragStartSlot = some startK)
    (k : JStr) :
    lookupBool (handleMouseEnter dates timeSlots st dateStr timeSlot).avail
        k =
      if k ∈ getSlotsBetween dates timeSlots startK
          (getSlotKey dateStr timeSlot)
      then st.dragMode else lookupBool st.avail k := by
  cases st with
  | mk isD mode start avail =>
      dsimp only at hd hs ⊢
      subst hd
      subst hs
      show lookupBool ((getSlotsBetween dates timeSlots startK
          (getSlotKey dateStr timeSlot)).foldl
            (fun a s => jsSet a s mode) avail) k = _
      rw [lookupBool_foldl_jsSet]

/-- Witness for the amended C7. -/
theorem handleMouseEnter_paints_witness :
    lookupBool (handleMouseEnter [['A'], ['B']] [['0', '9']]
        ⟨true, true, some ['A', '_', '0', '9'], []⟩ ['B'] ['0', '9']).avail
      ['B', '_', '0', '9'] =
      if ['B', '_', '0', '9'] ∈ getSlotsBetween [['A'], ['B']] [['0', '9']]
          ['A', '_', '0', '9'] (getSlotKey ['B'] ['0', '9'])
      then true else lookupBool ([] : AvailMap) ['B', '_', '0', '9'] :=
  handleMouseEnter_paints [['A'], ['B']] [['0', '9']]
    ⟨true, true, some ['A', '_', '0', '9'], []⟩ ['B'] ['0', '9']
    ['A', '_', '0', '9'] rfl rfl ['B', '_', '0', '9']

/-! ## Best times (C4) -/

lemma lastUnderscoreIdx_no_sep {t : JStr} (h : '_' ∉ t) :
    lastUnderscoreIdx t = -1 := by
  induction t with
  | nil => rfl
  | cons c rest ih =>
      have hc : c ≠ '_' := fun hc => h (hc ▸ List.mem_cons_self c rest)
      have hr : '_' ∉ rest := fun hr => h (List.mem_cons_of_mem c hr)
      rw [lastUnderscoreIdx]
      simp [ih hr, hc]

lemma key_recover_idx {d t : JStr} (ht : '_' ∉ t) :
    lastUnderscoreIdx (getSlotKey d t) = (d.length : Int) := by
  induction d with
  | nil =>
      show lastUnderscoreIdx ('_' :: t) = 0
      rw [lastUnderscoreIdx]
      simp [lastUnderscoreIdx_no_sep ht]
  | cons ch d2 ih =>
      show lastUnderscoreIdx (ch :: getSlotKey d2 t) = _
      rw [lastUnderscoreIdx]
      simp only [ih]
      rw [if_neg (by omega), List.length_cons]
      push_cast
      ring

lemma key_recover_take (d t : JStr) :
    (getSlotKey d t).take d.length = d := by
  rw [getSlotKey]
  exact List.take_left d ('_' :: t)

lemma key_recover_drop (d t : JStr) :
    (getSlotKey d t).drop (d.length + 1) = t := by
  rw [getSlotKey, ← List.drop_drop 1 d.length (d ++ '_' :: t),
    List.drop_left]
  rfl

lemma getSlotKey_inj {d1 t1 d2 t2 : JStr} (h1 : '_' ∉ t1)
    (h2 : '_' ∉ t2) (h : getSlotKey d1 t1 = getSlotKey d2 t2) :
    d1 = d2 ∧ t1 = t2 := by
  have hlen : (d1.length : Int) = (d2.length : Int) := by
    rw [← key_recover_idx (d := d1) h1, ← key_recover_idx (d := d2) h2, h]
  have hlen2 : d1.length = d2.length := by exact_mod_cast hlen
  refine ⟨?_, ?_⟩
  · rw [← key_recover_take d1 t1, ← key_recover_take d2 t2, h, hlen2]
  · rw [← key_recover_drop d1 t1, ← key_recover_drop d2 t2, h, hlen2]

lemma gridCells_mem {dates timeSlots : List JStr} {p : JStr × JStr} :
    p ∈ gridCells dates timeSlots ↔ p.1 ∈ dates ∧ p.2 ∈ timeSlots := by
  cases p with
  | mk d t =>
      unfold gridCells
      constructor
      · intro hmem
        rcases List.mem_flatMap.mp hmem with ⟨a, ha, hin⟩
        rcases List.mem_map.mp hin with ⟨b, hb, heq⟩
        cases heq
        exact ⟨ha, hb⟩
      · rintro ⟨hd, ht⟩
        exact List.mem_flatMap.mpr ⟨d, hd, List.mem_map.mpr ⟨t, ht, rfl⟩⟩

lemma gridCells_nodup {dates timeSlots : List JStr} (h1 : dates.Nodup)
    (h2 : timeSlots.Nodup) : (gridCells dates timeSlots).Nodup :=
  List.Nodup.product h1 h2

lemma foldl_flatMap {α β γ : Type} (g : γ → β → γ) (h : α → List β)
    (l : List α) (init : γ) :
    (l.flatMap h).foldl g init =
      l.foldl (fun acc x => (h x).foldl g acc) init := by
  induction l generalizing init with
  | nil => rfl
  | cons x xs ih =>
      rw [List.flatMap_cons, List.foldl_append, List.foldl_cons, ih]

lemma foldl_congr_fun {α β : Type} {f g : β → α → β} (l : List α)
    (init : β) (h : ∀ acc x, f acc x = g acc x) :
    l.foldl f init = l.foldl g init := by
  induction l generalizing init with
  | nil => rfl
  | cons x xs ih => rw [List.foldl_cons, List.foldl_cons, h, ih]

lemma foldl_jsSet_fresh {β : Type} :
    ∀ (ps acc : List (JStr × β)),
      ((acc ++ ps).map Prod.fst).Nodup →
      ps.foldl (fun m p => jsSet m p.1 p.2) acc = acc ++ ps := by
  intro ps
  induction ps with
  | nil => intro acc h; simp
  | cons p ps ih =>
      intro acc h
      have hfresh : acc.any (fun q => decide (q.1 = p.1)) = false := by
        rw [List.any_eq_false]
        intro q hq
        simp only [decide_eq_true_eq]
        intro heq
        rw [List.map_append] at h
        rcases List.nodup_append.mp h with ⟨_, _, hdisj⟩
        exact hdisj (List.mem_map.mpr ⟨q, hq, heq⟩)
          (List.mem_map.mpr ⟨p, List.mem_cons_self p ps, rfl⟩)
      have hih := ih (acc ++ [(p.1, p.2)]) (by
        have hre : (acc ++ [(p.1, p.2)]) ++ ps = acc ++ p :: ps := by
          rw [List.append_assoc]
          simp
        rw [hre]
        exact h)
      rw [List.foldl_cons, jsSet, if_neg (by simp [hfresh]), hih,
        List.append_assoc]
      simp

lemma slotCountsFor_eq_scan (dates timeSlots : List JStr)
    (responses : Responses) (h1 : dates.Nodup) (h2 : timeSlots.Nodup)
    (h3 : ∀ t ∈ timeSlots, '_' ∉ t) :
    slotCountsFor dates timeSlots responses =
      (gridCells dates timeSlots).map
        (fun p => (getSlotKey p.1 p.2,
          cellCount responses (getSlotKey p.1 p.2))) := by
  have hscan : (gridCells dates timeSlots).map
        (fun p => (getSlotKey p.1 p.2,
          cellCount responses (getSlotKey p.1 p.2))) =
      dates.flatMap (fun d => timeSlots.map (fun t =>
        (getSlotKey d t, cellCount responses (getSlotKey d t)))) := by
    unfold gridCells
    rw [List.map_flatMap]
    congr 1
    funext d
    rw [List.map_map]
    rfl
  have hkeysnodup : (((gridCells dates timeSlots).map
      (fun p => (getSlotKey p.1 p.2,
        cellCount responses (getSlotKey p.1 p.2)))).map Prod.fst).Nodup := by
    rw [List.map_map]
    refine List.Nodup.map_on ?_ (gridCells_nodup h1 h2)
    intro x hx y hy hxy
    have hx2 := (gridCells_mem.mp hx).2
    have hy2 := (gridCells_mem.mp hy).2
    have hinj := getSlotKey_inj (h3 _ hx2) (h3 _ hy2) hxy
    exact Prod.ext hinj.1 hinj.2
  have e1 : slotCountsFor dates timeSlots responses =
      (dates.flatMap (fun d => timeSlots.map (fun t => (getSlotKey d t,
        cellCount responses (getSlotKey d t))))).foldl
        (fun m p => jsSet m p.1 p.2) [] := by
    rw [slotCountsFor, foldl_flatMap]
    exact foldl_congr_fun dates []
      (fun acc d => (List.foldl_map
        (fun t => (getSlotKey d t, cellCount responses (getSlotKey d t)))
        (fun m p => jsSet m p.1 p.2) timeSlots acc).symm)
  rw [e1, ← hscan,
    foldl_jsSet_fresh _ [] (by simpa using hkeysnodup), List.nil_append]

lemma foldl_max_cast (l : List Nat) : ∀ x : Nat,
    l.foldl (fun (a : Int) (n : Nat) => max a (n : Int)) (x : Int) =
      ((l.foldl max x : Nat) : Int) := by
  induction l with
  | nil => intro x; rfl
  | cons c cs ih =>
      intro x
      rw [List.foldl_cons, List.foldl_cons,
        show max (x : Int) (c : Int) = ((max x c : Nat) : Int) from
          (Nat.cast_max x c).symm]
      exact ih (max x c)

lemma foldl_max_neg_one (l : List Nat) :
    l.foldl (fun (a : Int) (n : Nat) => max a (n : Int)) (-1) =
      if l = [] then -1 else ((l.foldl max 0 : Nat) : Int) := by
  cases l with
  | nil => rfl
  | cons c cs =>
      rw [if_neg (by simp), List.foldl_cons, List.foldl_cons,
        show max (-1 : Int) (c : Int) = (c : Int) from
          max_eq_right (by omega),
        show max 0 c = c from max_eq_right (Nat.zero_le c),
        foldl_max_cast]

lemma foldl_max_zero_iff : ∀ (l : List Nat) (acc : Nat),
    l.foldl max acc = 0 ↔ acc = 0 ∧ ∀ x ∈ l, x = 0 := by
  intro l
  induction l with
  | nil => intro acc; simp
  | cons c cs ih =>
      intro acc
      rw [List.foldl_cons, ih]
      constructor
      · rintro ⟨hm, hall⟩
        rcases Nat.max_eq_zero_iff.mp hm with ⟨ha, hc⟩
        exact ⟨ha, by rw [List.forall_mem_cons]; exact ⟨hc, hall⟩⟩
      · rintro ⟨ha, hall⟩
        rw [List.forall_mem_cons] at hall
        exact ⟨Nat.max_eq_zero_iff.mpr ⟨ha, hall.1⟩, hall.2⟩

lemma filter_map_recover (L : List (JStr × JStr))
    (g : JStr × JStr → Nat) (M : Nat) (hts : ∀ p ∈ L, '_' ∉ p.2) :
    ((L.map (fun p => (getSlotKey p.1 p.2, g p))).filter
      (fun q => decide ((q.2 : Int) = (M : Int)))).map
      (fun q =>
        let idx := lastUnderscoreIdx q.1
        BestSlot.mk (q.1.take idx.toNat) (q.1.drop (idx + 1).toNat) q.2) =
    (L.filter (fun p => decide (g p = M))).map
      (fun p => BestSlot.mk p.1 p.2 M) := by
  induction L with
  | nil => rfl
  | cons p L ih =>
      rw [List.map_cons, List.filter_cons, List.filter_cons]
      by_cases hgp : g p = M
      · rw [if_pos (by simp [hgp]), if_pos (by simp [hgp]),
          List.map_cons, List.map_cons,
          ih (fun q hq => hts q (List.mem_cons_of_mem p hq))]
        congr 1
        show BestSlot.mk
            ((getSlotKey p.1 p.2).take
              (lastUnderscoreIdx (getSlotKey p.1 p.2)).toNat)
            ((getSlotKey p.1 p.2).drop
              (lastUnderscoreIdx (getSlotKey p.1 p.2) + 1).toNat)
            (g p) = BestSlot.mk p.1 p.2 M
        rw [key_recover_idx (hts p (List.mem_cons_self p L)),
          show ((p.1.length : Int)).toNat = p.1.length by omega,
          show ((p.1.length : Int) + 1).toNat = p.1.length + 1 by omega,
          key_recover_take, key_recover_drop, hgp]
      · rw [if_neg (by simp [hgp]), if_neg (by simp [hgp]),
          ih (fun q hq => hts q (List.mem_cons_of_mem p hq))]

/-- C4: with unique columns and times and separator-free times (the data
model's invariants), `getBestTimes` returns the empty list when every
per-cell count is zero (in particular with no respondents, or an empty
grid), and otherwise exactly the cells whose count equals the maximum,
in grid scan order (dates outer, times inner), each entry carrying the
maximum count. -/
theorem getBestTimes_spec (dates timeSlots : List JStr)
    (responses : Responses) (h1 : dates.Nodup) (h2 : timeSlots.Nodup)
    (h3 : ∀ t ∈ timeSlots, '_' ∉ t) :
    getBestTimes dates timeSlots responses =
      if ∀ p ∈ gridCells dates timeSlots,
          cellCount responses (getSlotKey p.1 p.2) = 0 then []
      else ((gridCells dates timeSlots).filter
          (fun p => decide (cellCount responses (getSlotKey p.1 p.2) =
            maxCellCount dates timeSlots responses))).map
        (fun p => BestSlot.mk p.1 p.2
          (maxCellCount dates timeSlots responses)) := by
  simp only [getBestTimes]
  rw [slotCountsFor_eq_scan dates timeSlots responses h1 h2 h3]
  have hfold : ((gridCells dates timeSlots).map
      (fun p => (getSlotKey p.1 p.2,
        cellCount responses (getSlotKey p.1 p.2)))).foldl
        (fun a p => max a (p.2 : Int)) (-1) =
      (((gridCells dates timeSlots).map
        (fun p => cellCount responses (getSlotKey p.1 p.2))).foldl
        (fun (a : Int) (n : Nat) => max a (n : Int)) (-1)) := by
    rw [List.foldl_map, List.foldl_map]
  rw [hfold, foldl_max_neg_one]
  by_cases hnil : (gridCells dates timeSlots).map
      (fun p => cellCount responses (getSlotKey p.1 p.2)) = []
  · rw [if_pos hnil, if_neg (by decide : ¬(-1 : Int) = 0)]
    have hLnil : gridCells dates timeSlots = [] := List.map_eq_nil_iff.mp hnil
    rw [hLnil]
    simp
  · rw [if_neg hnil]
    by_cases hzero : ((gridCells dates timeSlots).map
        (fun p => cellCount responses (getSlotKey p.1 p.2))).foldl max 0 = 0
    · rw [hzero, if_pos (by norm_num)]
      have hall : ∀ p ∈ gridCells dates timeSlots,
          cellCount responses (getSlotKey p.1 p.2) = 0 := by
        intro p hp
        exact ((foldl_max_zero_iff _ 0).mp hzero).2 _
          (List.mem_map.mpr ⟨p, hp, rfl⟩)
      rw [if_pos hall]
    · have hM0 : ¬ ((((gridCells dates timeSlots).map
          (fun p => cellCount responses
            (getSlotKey p.1 p.2))).foldl max 0 : Nat) : Int) = 0 := by
        exact_mod_cast hzero
      rw [if_neg hM0]
      have hcond : ¬ ∀ p ∈ gridCells dates timeSlots,
          cellCount responses (getSlotKey p.1 p.2) = 0 := by
        intro hall
        apply hzero
        refine (foldl_max_zero_iff _ 0).mpr ⟨rfl, ?_⟩
        intro x hx
        rcases List.mem_map.mp hx with ⟨p, hp, rfl⟩
        exact hall p hp
      rw [if_neg hcond]
      exact filter_map_recover (gridCells dates timeSlots)
        (fun p => cellCount responses (getSlotKey p.1 p.2))
        (maxCellCount dates timeSlots responses)
        (fun p hp => h3 p.2 (gridCells_mem.mp hp).2)

/-- Witness for C4 on the spec's own scenario shape: two dates, two
slots, two respondents, a unique best cell with count 2. -/
theorem getBestTimes_spec_witness :
    getBestTimes [['D'], ['E']] [['0', '9'], ['1', '0']]
      [(['a'], [(getSlotKey ['D'] ['0', '9'], true)]),
       (['b'], [(getSlotKey ['D'] ['0', '9'], true),
                (getSlotKey ['D'] ['1', '0'], true)])] =
      if ∀ p ∈ gridCells [['D'], ['E']] [['0', '9'], ['1', '0']],
          cellCount [(['a'], [(getSlotKey ['D'] ['0', '9'], true)]),
            (['b'], [(getSlotKey ['D'] ['0', '9'], true),
              (getSlotKey ['D'] ['1', '0'], true)])]
            (getSlotKey p.1 p.2) = 0 then []
      else ((gridCells [['D'], ['E']] [['0', '9'], ['1', '0']]).filter
          (fun p => decide (cellCount
            [(['a'], [(getSlotKey ['D'] ['0', '9'], true)]),
             (['b'], [(getSlotKey ['D'] ['0', '9'], true),
               (getSlotKey ['D'] ['1', '0'], true)])]
            (getSlotKey p.1 p.2) =
            maxCellCount [['D'], ['E']] [['0', '9'], ['1', '0']]
              [(['a'], [(getSlotKey ['D'] ['0', '9'], true)]),
               (['b'], [(getSlotKey ['D'] ['0', '9'], true),
                 (getSlotKey ['D'] ['1', '0'], true)])]))).map
        (fun p => BestSlot.mk p.1 p.2
          (maxCellCount [['D'], ['E']] [['0', '9'], ['1', '0']]
            [(['a'], [(getSlotKey ['D'] ['0', '9'], true)]),
             (['b'], [(getSlotKey ['D'] ['0', '9'], true),
               (getSlotKey ['D'] ['1', '0'], true)])])) :=
  getBestTimes_spec [['D'], ['E']] [['0', '9'], ['1', '0']]
    [(['a'], [(getSlotKey ['D'] ['0', '9'], true)]),
     (['b'], [(getSlotKey ['D'] ['0', '9'], true),
       (getSlotKey ['D'] ['1', '0'], true)])]
    (by decide) (by decide) (by decide)

end Theorems

end SchedMeet
